import Mathlib

/-!
# Risk-Engine: the empirical quantile of `src/Exposure/cpp/VaR.cpp`

A shallow embedding of `empirical_quantilte` (lines 19-24) and of the `VaR` class
(lines 7-13), with the properties the specification states about them.

Conventions of the embedding.

* A `double` is a rational number: the finite, non-NaN values with exact arithmetic.
  The source only compares sample values and `q` with `<`, `<=`, `>=`, which is exact
  on such values.
* A `std::vector<double>` is a `List ℚ`.
* A call ends in one of three ways (`Outcome`): a returned value, a thrown exception,
  or control reaching the closing brace of a non-void function without a `return`
  statement. The last is undefined behaviour in C++: no value is handed to the caller,
  and what the caller then observes is not fixed by the language.
-/

namespace RiskEngine

/-- The two errors of the specification's taxonomy. `EmptySample` is the
`std::invalid_argument("Empty Sample")` of line 20. -/
inductive Error where
  | EmptySample
  | InvalidConfidenceLevel
  deriving DecidableEq

/-- How a call ends: with a returned value, with a thrown exception, or at the closing
brace of the function without a `return` statement. -/
inductive Outcome (α : Type) where
  | value (v : α)
  | raised (e : Error)
  | noReturn
  deriving DecidableEq

/-- The loop of `std::min_element` after its first step: `smallest` is the element the
iterator kept so far, and an element replaces it only when it is strictly smaller
(`*first < *smallest`). -/
def min_element_loop (smallest : ℚ) : List ℚ → ℚ
  | [] => smallest
  | y :: ys => min_element_loop (if y < smallest then y else smallest) ys

/-- The element `std::min_element(x.begin(), x.end())` points to; `none` is the end
iterator, which is what the library returns on an empty range. -/
def min_element : List ℚ → Option ℚ
  | [] => none
  | y :: ys => some (min_element_loop y ys)

/-- The loop of `std::max_element` after its first step: an element replaces `largest`
only when `*largest < *first`. -/
def max_element_loop (largest : ℚ) : List ℚ → ℚ
  | [] => largest
  | y :: ys => max_element_loop (if largest < y then y else largest) ys

/-- The element `std::max_element(x.begin(), x.end())` points to; `none` is the end
iterator. -/
def max_element : List ℚ → Option ℚ
  | [] => none
  | y :: ys => some (max_element_loop y ys)

/-- The statement `return *it;`: dereferencing the end iterator yields no value. -/
def return_deref : Option ℚ → Outcome ℚ
  | some v => Outcome.value v
  | none => Outcome.noReturn

/-- The range after `std::sort(x.begin(), x.end())`: the ascending rearrangement. -/
def sort (x : List ℚ) : List ℚ :=
  List.insertionSort (fun a b => a ≤ b) x

/-- The body of `empirical_quantilte` (lines 20-24), run on its by-value parameter `x`.
The result is the outcome of the call together with the contents of `x` when the body
ends. Two lines of the source are ill-formed as written and are read as follows.
Line 20 reads `thwo std::invalid_argument("Empty Sample")`, taken as the `throw` it
misspells. Line 19 declares the parameter `const std::vector<double> x`, and line 23
calls `std::sort(x.begin(), x.end())`, which needs a mutable range; line 23 is taken as
sorting the parameter `x`, the only object it names, as if line 19 had no `const`.
Line 24 closes the function, with no `return` after the sort. -/
def empirical_quantilte_body (x : List ℚ) (q : ℚ) : Outcome ℚ × List ℚ :=
  if x.isEmpty then (Outcome.raised Error.EmptySample, x)
  else if q ≤ 0 then (return_deref (min_element x), x)
  else if q ≥ 1 then (return_deref (max_element x), x)
  else (Outcome.noReturn, sort x)

/-- The function `empirical_quantilte(x, q)` as its caller sees it. -/
def empirical_quantilte (x : List ℚ) (q : ℚ) : Outcome ℚ :=
  (empirical_quantilte_body x q).1

/-- The vector objects alive while `empirical_quantilte` runs: the vector the caller
passes as the argument, the global `pnl` of line 15, and the callee's parameter `x`. -/
structure Store where
  caller : List ℚ
  pnl : List ℚ
  x : List ℚ
  deriving DecidableEq

/-- Lines 20-24 as a transformer of the whole store, each line acting on the objects it
names: line 20 reads `x`, lines 21 and 22 read `x`, and line 23 writes the sorted range
back into `x` (with the reading of lines 19 and 23 given at `empirical_quantilte_body`).
The result is the outcome and the store when the body ends; for the path through line
23 that is the store when control reaches the closing brace. -/
def empirical_quantilte_exec (s : Store) (q : ℚ) : Outcome ℚ × Store :=
  if s.x.isEmpty then (Outcome.raised Error.EmptySample, s)
  else if q ≤ 0 then (return_deref (min_element s.x), s)
  else if q ≥ 1 then (return_deref (max_element s.x), s)
  else (Outcome.noReturn, { s with x := sort s.x })

/-- Parameter passing of line 19: `x` is declared by value, so on entry it is
copy-constructed from the caller's vector, a distinct object with the same contents. -/
def pass_by_value (caller pnl : List ℚ) : Store :=
  { caller := caller, pnl := pnl, x := caller }

/-- A call `empirical_quantilte(caller, q)` while the global holds `pnl`: parameter
passing, then the body. -/
def empirical_quantilte_call (caller pnl : List ℚ) (q : ℚ) : Outcome ℚ × Store :=
  empirical_quantilte_exec (pass_by_value caller pnl) q

/-- The quantile as the specification words it (section 4.1), for comparison with the
source: a sorted ascending copy; its smallest element when `q <= 0`, its largest when
`q >= 1`; otherwise the fractional rank `r = q * (n - 1)` and the linear interpolation
`sorted[floor r] + (r - floor r) * (sorted[ceil r] - sorted[floor r])`. -/
def quantile_spec (sample : List ℚ) (q : ℚ) : Outcome ℚ :=
  if sample.isEmpty then Outcome.raised Error.EmptySample
  else
    let sorted := sort sample
    if q ≤ 0 then return_deref sorted.head?
    else if q ≥ 1 then return_deref sorted.getLast?
    else
      let r : ℚ := q * ((sample.length : ℚ) - 1)
      let lo : ℚ := sorted.getD ⌊r⌋.toNat 0
      let hi : ℚ := sorted.getD ⌈r⌉.toNat 0
      Outcome.value (lo + (r - (⌊r⌋ : ℚ)) * (hi - lo))

/-- The class `VaR` (lines 7-13): its only data member is the private vector `returns`. -/
structure VaR where
  returns : List ℚ
  deriving DecidableEq

/-- Modelled from the spec: the constructor `VaR::VaR(const std::vector<double>&)` (named
`construct` here, since `VaR.VaR` would shadow the class inside its own namespace), which
line 9 declares and the source never defines. Section 4.2 and section 8: construction
rejects an empty sample with the empty-sample error, and otherwise the object stores
its own copy of the sample. -/
def VaR.construct (returns : List ℚ) : Outcome VaR :=
  if returns.isEmpty then Outcome.raised Error.EmptySample
  else Outcome.value { returns := returns }

/-- Modelled from the spec: the mapping of `VaR::calculateVaR` from a confidence level
to a result, over a quantile estimator `quantile`. Section 4.2: a confidence level
outside `0 < confidenceLevel < 1` is rejected with the invalid-confidence-level error,
with no clamping; otherwise the result is `-quantile(sample, 1 - confidenceLevel)`,
not floored at zero, and a failure of the estimator is passed on. -/
def calculateVaR_over (quantile : List ℚ → ℚ → Outcome ℚ) (self : VaR)
    (confidenceLevel : ℚ) : Outcome ℚ :=
  if ¬ (0 < confidenceLevel ∧ confidenceLevel < 1) then
    Outcome.raised Error.InvalidConfidenceLevel
  else
    match quantile self.returns (1 - confidenceLevel) with
    | Outcome.value v => Outcome.value (-v)
    | Outcome.raised e => Outcome.raised e
    | Outcome.noReturn => Outcome.noReturn

/-- Modelled from the spec: the member function `VaR::calculateVaR`, which line 10
declares and the source never defines. Its estimator is the source's
`empirical_quantilte`, the only quantile function of the file. -/
def VaR.calculateVaR (self : VaR) (confidenceLevel : ℚ) : Outcome ℚ :=
  calculateVaR_over empirical_quantilte self confidenceLevel

/-! ## Lemmas on the library scans -/

theorem min_element_loop_mem (s : ℚ) (ys : List ℚ) :
    min_element_loop s ys ∈ s :: ys := by
  induction ys generalizing s with
  | nil => simp [min_element_loop]
  | cons y ys ih =>
    have h := ih (if y < s then y else s)
    simp only [min_element_loop]
    split_ifs at h ⊢ with hlt
    · simp only [List.mem_cons] at h ⊢
      tauto
    · simp only [List.mem_cons] at h ⊢
      tauto

theorem min_element_loop_le (s : ℚ) (ys : List ℚ) :
    ∀ y ∈ s :: ys, min_element_loop s ys ≤ y := by
  induction ys generalizing s with
  | nil => simp [min_element_loop]
  | cons z zs ih =>
    intro y hy
    have h := ih (if z < s then z else s)
    simp only [min_element_loop]
    have hs : min_element_loop (if z < s then z else s) zs ≤ (if z < s then z else s) :=
      h _ (List.mem_cons_self _ _)
    simp only [List.mem_cons] at hy
    rcases hy with rfl | rfl | hy
    · refine le_trans hs ?_
      split_ifs with hlt
      · exact le_of_lt hlt
      · exact le_refl _
    · refine le_trans hs ?_
      split_ifs with hlt
      · exact le_refl _
      · exact not_lt.mp hlt
    · exact h y (List.mem_cons_of_mem _ hy)

theorem max_element_loop_mem (s : ℚ) (ys : List ℚ) :
    max_element_loop s ys ∈ s :: ys := by
  induction ys generalizing s with
  | nil => simp [max_element_loop]
  | cons y ys ih =>
    have h := ih (if s < y then y else s)
    simp only [max_element_loop]
    split_ifs at h ⊢ with hlt
    · simp only [List.mem_cons] at h ⊢
      tauto
    · simp only [List.mem_cons] at h ⊢
      tauto

theorem max_element_loop_ge (s : ℚ) (ys : List ℚ) :
    ∀ y ∈ s :: ys, y ≤ max_element_loop s ys := by
  induction ys generalizing s with
  | nil => simp [max_element_loop]
  | cons z zs ih =>
    intro y hy
    have h := ih (if s < z then z else s)
    simp only [max_element_loop]
    have hs : (if s < z then z else s) ≤ max_element_loop (if s < z then z else s) zs :=
      h _ (List.mem_cons_self _ _)
    simp only [List.mem_cons] at hy
    rcases hy with rfl | rfl | hy
    · refine le_trans ?_ hs
      split_ifs with hlt
      · exact le_of_lt hlt
      · exact le_refl _
    · refine le_trans ?_ hs
      split_ifs with hlt
      · exact le_refl _
      · exact not_lt.mp hlt
    · exact h y (List.mem_cons_of_mem _ hy)

/-- On a non-empty sample and `0 < q < 1` the body sorts its copy and ends at the
closing brace. -/
theorem empirical_quantilte_interior (x : List ℚ) (q : ℚ) (hx : x ≠ [])
    (h0 : 0 < q) (h1 : q < 1) : empirical_quantilte x q = Outcome.noReturn := by
  cases x with
  | nil => exact absurd rfl hx
  | cons a as =>
    simp [empirical_quantilte, empirical_quantilte_body, not_le.mpr h0, not_le.mpr h1]

/-- On a non-empty sample no exception is thrown, and a value is returned exactly when
`q <= 0` or `q >= 1`. -/
theorem empirical_quantilte_value_iff (x : List ℚ) (q : ℚ) (hx : x ≠ []) :
    (∀ e, empirical_quantilte x q ≠ Outcome.raised e) ∧
    ((∃ v, empirical_quantilte x q = Outcome.value v) ↔ (q ≤ 0 ∨ q ≥ 1)) := by
  cases x with
  | nil => exact absurd rfl hx
  | cons a as =>
    by_cases h0 : q ≤ 0
    · simp [empirical_quantilte, empirical_quantilte_body, h0, min_element, return_deref]
    · by_cases h1 : q ≥ 1
      · simp [empirical_quantilte, empirical_quantilte_body, h0, h1, max_element,
          return_deref]
      · simp [empirical_quantilte, empirical_quantilte_body, h0, h1]

/-- Wherever two calls on the same sample both return a value, the values are ordered
as their probabilities are. -/
theorem empirical_quantilte_monotone_on_values (x : List ℚ) (q1 q2 v1 v2 : ℚ)
    (hq : q1 ≤ q2) (h1 : empirical_quantilte x q1 = Outcome.value v1)
    (h2 : empirical_quantilte x q2 = Outcome.value v2) : v1 ≤ v2 := by
  cases x with
  | nil => simp [empirical_quantilte, empirical_quantilte_body] at h1
  | cons a as =>
    have m1 := min_element_loop_mem a as
    have m2 := max_element_loop_mem a as
    have l1 := min_element_loop_le a as
    have l2 := max_element_loop_ge a as
    simp only [empirical_quantilte, empirical_quantilte_body, List.isEmpty_cons,
      Bool.false_eq_true, if_false] at h1 h2
    split_ifs at h1 h2 with a1 a2 a3 a4 a5 a6
    all_goals
      simp only [min_element, max_element, return_deref, Outcome.value.injEq] at h1 h2
    all_goals first
      | (subst h1; subst h2; first
          | exact le_refl _
          | exact l1 _ m2
          | exact l1 _ m1
          | exact l2 _ m2)
      | (exfalso; linarith)

/-- The scan of `std::min_element` finds the same value on two non-empty ranges that
hold the same elements in any order. -/
theorem min_element_loop_perm (a b : ℚ) (as bs : List ℚ)
    (h : List.Perm (a :: as) (b :: bs)) :
    min_element_loop a as = min_element_loop b bs := by
  apply le_antisymm
  · exact min_element_loop_le a as _ (h.mem_iff.mpr (min_element_loop_mem b bs))
  · exact min_element_loop_le b bs _ (h.mem_iff.mp (min_element_loop_mem a as))

/-- The scan of `std::max_element` finds the same value on two non-empty ranges that
hold the same elements in any order. -/
theorem max_element_loop_perm (a b : ℚ) (as bs : List ℚ)
    (h : List.Perm (a :: as) (b :: bs)) :
    max_element_loop a as = max_element_loop b bs := by
  apply le_antisymm
  · exact max_element_loop_ge b bs _ (h.mem_iff.mp (max_element_loop_mem a as))
  · exact max_element_loop_ge a as _ (h.mem_iff.mpr (max_element_loop_mem b bs))

/-- Every value a call returns is an element of the sample. -/
theorem empirical_quantilte_value_mem (x : List ℚ) (q v : ℚ)
    (h : empirical_quantilte x q = Outcome.value v) : v ∈ x := by
  cases x with
  | nil => simp [empirical_quantilte, empirical_quantilte_body] at h
  | cons a as =>
    simp only [empirical_quantilte, empirical_quantilte_body, List.isEmpty_cons,
      Bool.false_eq_true, if_false] at h
    split_ifs at h with h0 h1
    · simp only [min_element, return_deref, Outcome.value.injEq] at h
      rw [← h]
      exact min_element_loop_mem a as
    · simp only [max_element, return_deref, Outcome.value.injEq] at h
      rw [← h]
      exact max_element_loop_mem a as

/-- The body as a store transformer writes to `x` only, and agrees with the body run on
the parameter alone: same outcome, same final contents of `x`. -/
theorem empirical_quantilte_exec_frame (s : Store) (q : ℚ) :
    (empirical_quantilte_exec s q).2.caller = s.caller ∧
    (empirical_quantilte_exec s q).2.pnl = s.pnl ∧
    (empirical_quantilte_exec s q).1 = empirical_quantilte s.x q ∧
    (empirical_quantilte_exec s q).2.x = (empirical_quantilte_body s.x q).2 := by
  simp only [empirical_quantilte_exec, empirical_quantilte, empirical_quantilte_body]
  split_ifs
  · exact ⟨rfl, rfl, rfl, rfl⟩
  · exact ⟨rfl, rfl, rfl, rfl⟩
  · exact ⟨rfl, rfl, rfl, rfl⟩
  · exact ⟨rfl, rfl, rfl, rfl⟩

/-- At `q <= 0` or `q >= 1` two samples that are permutations of each other give the
same outcome: both calls return the same value, or both throw the empty-sample error. -/
theorem empirical_quantilte_perm_clamped (S S' : List ℚ) (q : ℚ) (h : List.Perm S S')
    (hq : q ≤ 0 ∨ q ≥ 1) :
    (∃ v, empirical_quantilte S q = Outcome.value v ∧
        empirical_quantilte S' q = Outcome.value v) ∨
    (empirical_quantilte S q = Outcome.raised Error.EmptySample ∧
        empirical_quantilte S' q = Outcome.raised Error.EmptySample) := by
  cases S with
  | nil =>
    have hS' : S' = [] := List.nil_perm.mp h
    right
    rw [hS']
    simp [empirical_quantilte, empirical_quantilte_body]
  | cons a as =>
    cases S' with
    | nil => exact absurd (List.perm_nil.mp h) (by simp)
    | cons b bs =>
      left
      simp only [empirical_quantilte, empirical_quantilte_body, List.isEmpty_cons,
        Bool.false_eq_true, if_false]
      split_ifs with h0 h1
      · exact ⟨min_element_loop a as, rfl, by
          simp only [min_element, return_deref, min_element_loop_perm a b as bs h]⟩
      · exact ⟨max_element_loop a as, rfl, by
          simp only [max_element, return_deref, max_element_loop_perm a b as bs h]⟩
      · exact absurd hq (by simp [h0, h1])

/-- At `q <= 0` or `q >= 1` a call on a non-empty sample returns an element of the
sample, which lies between the minimum and the maximum of the sample. -/
theorem empirical_quantilte_clamped_in_range (S : List ℚ) (q : ℚ) (hS : S ≠ [])
    (hq : q ≤ 0 ∨ q ≥ 1) :
    ∃ lo hi v, lo ∈ S ∧ hi ∈ S ∧ (∀ y ∈ S, lo ≤ y ∧ y ≤ hi) ∧
      empirical_quantilte S q = Outcome.value v ∧ v ∈ S ∧ lo ≤ v ∧ v ≤ hi := by
  cases S with
  | nil => exact absurd rfl hS
  | cons a as =>
    have hbound : ∀ y ∈ a :: as, min_element_loop a as ≤ y ∧ y ≤ max_element_loop a as :=
      fun y hy => ⟨min_element_loop_le a as y hy, max_element_loop_ge a as y hy⟩
    obtain ⟨v, hv⟩ := (empirical_quantilte_value_iff (a :: as) q hS).2.mpr hq
    have hm := empirical_quantilte_value_mem (a :: as) q v hv
    exact ⟨min_element_loop a as, max_element_loop a as, v, min_element_loop_mem a as,
      max_element_loop_mem a as, hbound, hv, hm, (hbound v hm).1, (hbound v hm).2⟩

/-! ## The claims -/

/-- C1: on the specification's scenario `[-5, -3, -1, 0, 2, 4, 6]` the source returns no
value at `q = 0.5` and at `q = 0.25` (the body ends right after the sort), where the
interpolation on the sorted copy gives `0` and `-2`. -/
theorem empirical_quantilte_lacks_interpolation :
    empirical_quantilte [-5, -3, -1, 0, 2, 4, 6] (1 / 2) = Outcome.noReturn ∧
    quantile_spec [-5, -3, -1, 0, 2, 4, 6] (1 / 2) = Outcome.value 0 ∧
    empirical_quantilte [-5, -3, -1, 0, 2, 4, 6] (1 / 4) = Outcome.noReturn ∧
    quantile_spec [-5, -3, -1, 0, 2, 4, 6] (1 / 4) = Outcome.value (-2) := by
  have hc : ⌈(3 / 2 : ℚ)⌉ = 2 := by
    rw [Int.ceil_eq_iff]
    norm_num
  have t2 : Int.toNat 2 = 2 := rfl
  have t3 : Int.toNat 3 = 3 := rfl
  refine ⟨?_, ?_, ?_, ?_⟩
  · norm_num [empirical_quantilte, empirical_quantilte_body]
  · norm_num [quantile_spec, sort, t3]
  · norm_num [empirical_quantilte, empirical_quantilte_body]
  · norm_num [quantile_spec, sort, hc, t2]

/-- C2: on a non-empty sample, `q <= 0` returns the minimum (an element of the sample
below all others) and `q >= 1` returns the maximum (an element above all others). -/
theorem empirical_quantilte_clamps_to_min_max (S : List ℚ) (q : ℚ) (hS : S ≠ []) :
    (q ≤ 0 → ∃ m, empirical_quantilte S q = Outcome.value m ∧ m ∈ S ∧ ∀ y ∈ S, m ≤ y) ∧
    (q ≥ 1 → ∃ M, empirical_quantilte S q = Outcome.value M ∧ M ∈ S ∧ ∀ y ∈ S, y ≤ M) := by
  cases S with
  | nil => exact absurd rfl hS
  | cons a as =>
    constructor
    · intro h0
      refine ⟨min_element_loop a as, ?_, min_element_loop_mem a as, min_element_loop_le a as⟩
      simp [empirical_quantilte, empirical_quantilte_body, h0, min_element, return_deref]
    · intro h1
      have h0 : ¬ q ≤ 0 := by
        intro h
        exact absurd (le_trans h1 h) (by norm_num)
      refine ⟨max_element_loop a as, ?_, max_element_loop_mem a as, max_element_loop_ge a as⟩
      simp [empirical_quantilte, empirical_quantilte_body, h0, h1, max_element, return_deref]

/-- Witness of C2: `quantile([3, -1, 2], 0)` is `-1`, the minimum of the sample. -/
theorem empirical_quantilte_clamps_to_min_max_witness :
    ∃ m, empirical_quantilte [3, -1, 2] 0 = Outcome.value m ∧ m ∈ [3, -1, 2] ∧
      ∀ y ∈ [3, -1, 2], m ≤ y :=
  (empirical_quantilte_clamps_to_min_max [3, -1, 2] 0 (by simp)).1 (le_refl 0)

/-- C3: on the empty sample every `q` ends in the empty-sample error; the emptiness
check comes before the two clamping tests. -/
theorem empirical_quantilte_empty_raises (q : ℚ) :
    empirical_quantilte [] q = Outcome.raised Error.EmptySample := by
  simp [empirical_quantilte, empirical_quantilte_body]

/-- C4: on the non-empty sample `[1]` and `q = 0.5` the call ends without a result:
neither a value nor an error. -/
theorem empirical_quantilte_nonempty_no_result :
    empirical_quantilte [1] (1 / 2) = Outcome.noReturn ∧
    (∀ v, empirical_quantilte [1] (1 / 2) ≠ Outcome.value v) ∧
    (∀ e, empirical_quantilte [1] (1 / 2) ≠ Outcome.raised e) := by
  have h : empirical_quantilte [1] (1 / 2) = Outcome.noReturn := by
    norm_num [empirical_quantilte, empirical_quantilte_body]
  refine ⟨h, ?_, ?_⟩
  · intro v
    rw [h]
    simp
  · intro e
    rw [h]
    simp

/-- C5: on the sample `[1, 2]` the call at `q1 = 0` returns `1` and the call at
`q2 = 0.5` returns no value, so the two results cannot be compared. -/
theorem empirical_quantilte_monotone_fails :
    empirical_quantilte [1, 2] 0 = Outcome.value 1 ∧
    empirical_quantilte [1, 2] (1 / 2) = Outcome.noReturn := by
  constructor
  · norm_num [empirical_quantilte, empirical_quantilte_body, min_element, min_element_loop,
      return_deref]
  · norm_num [empirical_quantilte, empirical_quantilte_body]

/-- C6: on the single-element sample `[42]` the call at `q = 0.5` returns no value,
where the specification's quantile is `42`. -/
theorem empirical_quantilte_singleton_fails :
    empirical_quantilte [42] (1 / 2) = Outcome.noReturn ∧
    quantile_spec [42] (1 / 2) = Outcome.value 42 := by
  constructor
  · norm_num [empirical_quantilte, empirical_quantilte_body]
  · norm_num [quantile_spec, sort]

/-- C7: a call leaves the caller's vector (same elements, same order) and the global
`pnl` as they were on every path of the body: the return of line 21 or 22, the throw of
line 20, and the path through the sort of line 23 up to the closing brace. The outcome
is that of `empirical_quantilte` on the caller's vector. The sort of line 23 is applied
to the parameter `x`, the callee's own copy: on a non-empty sample with `0 < q < 1` it is
`x` that ends in ascending order, and on the other paths `x` still equals the sample. -/
theorem empirical_quantilte_call_frame (caller pnl : List ℚ) (q : ℚ) :
    (empirical_quantilte_call caller pnl q).2.caller = caller ∧
    (empirical_quantilte_call caller pnl q).2.pnl = pnl ∧
    (empirical_quantilte_call caller pnl q).1 = empirical_quantilte caller q ∧
    (caller ≠ [] → 0 < q → q < 1 →
      (empirical_quantilte_call caller pnl q).2.x = sort caller ∧
      List.Sorted (fun a b => a ≤ b) (empirical_quantilte_call caller pnl q).2.x) ∧
    (¬ (caller ≠ [] ∧ 0 < q ∧ q < 1) →
      (empirical_quantilte_call caller pnl q).2.x = caller) := by
  have hf := empirical_quantilte_exec_frame (pass_by_value caller pnl) q
  refine ⟨hf.1, hf.2.1, hf.2.2.1, ?_, ?_⟩
  · intro hne h0 h1
    have he : caller.isEmpty = false := by
      cases caller with
      | nil => exact absurd rfl hne
      | cons a as => rfl
    have hx : (empirical_quantilte_call caller pnl q).2.x = sort caller := by
      simp [empirical_quantilte_call, empirical_quantilte_exec, pass_by_value, he,
        not_le.mpr h0, not_le.mpr h1]
    refine ⟨hx, ?_⟩
    rw [hx]
    exact List.sorted_insertionSort _ _
  · intro hn
    simp only [empirical_quantilte_call, empirical_quantilte_exec, pass_by_value]
    split_ifs with e1 e2 e3
    · rfl
    · rfl
    · rfl
    · exfalso
      apply hn
      refine ⟨?_, not_le.mp e2, not_le.mp e3⟩
      intro hc
      rw [hc] at e1
      exact e1 rfl

/-- Witness of C7: the call on the caller's vector `[3, 1, 2]` with `pnl = [7]` and
`q = 0.5` sorts its copy and leaves `[3, 1, 2]` and `[7]` in place; at `q = 0` the copy
is not sorted either. -/
theorem empirical_quantilte_call_frame_witness :
    (empirical_quantilte_call [3, 1, 2] [7] (1 / 2)).2.caller = [3, 1, 2] ∧
    (empirical_quantilte_call [3, 1, 2] [7] (1 / 2)).2.pnl = [7] ∧
    (empirical_quantilte_call [3, 1, 2] [7] (1 / 2)).2.x = [1, 2, 3] ∧
    (empirical_quantilte_call [3, 1, 2] [7] 0).2.x = [3, 1, 2] :=
  ⟨(empirical_quantilte_call_frame [3, 1, 2] [7] (1 / 2)).1,
   (empirical_quantilte_call_frame [3, 1, 2] [7] (1 / 2)).2.1,
   ((empirical_quantilte_call_frame [3, 1, 2] [7] (1 / 2)).2.2.2.1
      (by simp) (by norm_num) (by norm_num)).1.trans (by norm_num [sort]),
   (empirical_quantilte_call_frame [3, 1, 2] [7] 0).2.2.2.2 (by norm_num)⟩

/-- C9: `calculateVaR(c)` ends in the invalid-confidence-level error exactly when
`c <= 0` or `c >= 1`; no such level is clamped, and no level with `0 < c < 1` ends in
that error. -/
theorem calculateVaR_invalid_level_iff (self : VaR) (c : ℚ) :
    self.calculateVaR c = Outcome.raised Error.InvalidConfidenceLevel ↔ (c ≤ 0 ∨ c ≥ 1) := by
  constructor
  · intro h
    by_contra hc
    have hc0 : 0 < c := by
      by_contra h0
      exact hc (Or.inl (not_lt.mp h0))
    have hc1 : c < 1 := by
      by_contra h1
      exact hc (Or.inr (not_lt.mp h1))
    simp only [VaR.calculateVaR, calculateVaR_over, hc0, hc1, and_self, not_true_eq_false,
      if_false] at h
    cases hr : self.returns with
    | nil =>
      simp [hr, empirical_quantilte, empirical_quantilte_body] at h
    | cons a as =>
      have hne : self.returns ≠ [] := by simp [hr]
      have hq := empirical_quantilte_interior self.returns (1 - c) hne (by linarith)
        (by linarith)
      rw [hq] at h
      simp at h
  · intro h
    have hn : ¬ (0 < c ∧ c < 1) := by
      rintro ⟨h0, h1⟩
      rcases h with h | h
      · exact absurd h0 (not_lt.mpr h)
      · exact absurd h1 (not_lt.mpr h)
    simp [VaR.calculateVaR, calculateVaR_over, hn]

/-- Witness of C9: `calculateVaR(0)` and `calculateVaR(1)` on the sample `[1, 2]` end in
the invalid-confidence-level error. -/
theorem calculateVaR_invalid_level_iff_witness :
    VaR.calculateVaR { returns := [1, 2] } 0 = Outcome.raised Error.InvalidConfidenceLevel ∧
    VaR.calculateVaR { returns := [1, 2] } 1 = Outcome.raised Error.InvalidConfidenceLevel :=
  ⟨(calculateVaR_invalid_level_iff { returns := [1, 2] } 0).mpr (Or.inl (le_refl 0)),
   (calculateVaR_invalid_level_iff { returns := [1, 2] } 1).mpr (Or.inr (le_refl 1))⟩

/-- C10: construction from the empty sample ends in the empty-sample error; every
object a construction yields stores the sample it was given, which is non-empty, so
`calculateVaR` on it never ends in the empty-sample error. -/
theorem VaR_construct_fails_fast :
    VaR.construct [] = Outcome.raised Error.EmptySample ∧
    ∀ (S : List ℚ) (v : VaR), VaR.construct S = Outcome.value v →
      v.returns = S ∧ v.returns ≠ [] ∧
      ∀ c, v.calculateVaR c ≠ Outcome.raised Error.EmptySample := by
  refine ⟨rfl, ?_⟩
  intro S v h
  cases S with
  | nil => simp [VaR.construct] at h
  | cons a as =>
    simp only [VaR.construct, List.isEmpty_cons, Bool.false_eq_true, if_false,
      Outcome.value.injEq] at h
    subst h
    refine ⟨rfl, by simp, ?_⟩
    intro c hc
    by_cases hv : 0 < c ∧ c < 1
    · have hq := empirical_quantilte_interior (a :: as) (1 - c) (by simp)
        (by linarith [hv.2]) (by linarith [hv.1])
      simp [VaR.calculateVaR, calculateVaR_over, hv, hq] at hc
    · simp [VaR.calculateVaR, calculateVaR_over, hv] at hc

/-- Witness of C10: construction from `[1]` yields an object that stores `[1]`, on which
`calculateVaR(0.5)` does not end in the empty-sample error. -/
theorem VaR_construct_fails_fast_witness :
    VaR.construct [1] = Outcome.value { returns := [1] } ∧
    VaR.calculateVaR { returns := [1] } (1 / 2) ≠ Outcome.raised Error.EmptySample :=
  ⟨rfl, (VaR_construct_fails_fast.2 [1] { returns := [1] } rfl).2.2 (1 / 2)⟩

/-- C11: `[3, 1, 2]` and its rearrangement `[1, 2, 3]` at `q = 0.5`: each call sorts its
copy and ends without a return, so the two calls neither both throw nor both return the
same value; the specification's quantile is `2` on both. -/
theorem empirical_quantilte_perm_no_common_result :
    List.Perm [(3 : ℚ), 1, 2] [1, 2, 3] ∧
    empirical_quantilte [3, 1, 2] (1 / 2) = Outcome.noReturn ∧
    empirical_quantilte [1, 2, 3] (1 / 2) = Outcome.noReturn ∧
    ¬ ((∃ e, empirical_quantilte [3, 1, 2] (1 / 2) = Outcome.raised e ∧
            empirical_quantilte [1, 2, 3] (1 / 2) = Outcome.raised e) ∨
       (∃ v, empirical_quantilte [3, 1, 2] (1 / 2) = Outcome.value v ∧
            empirical_quantilte [1, 2, 3] (1 / 2) = Outcome.value v)) ∧
    quantile_spec [3, 1, 2] (1 / 2) = Outcome.value 2 ∧
    quantile_spec [1, 2, 3] (1 / 2) = Outcome.value 2 := by
  have h1 : empirical_quantilte [3, 1, 2] (1 / 2) = Outcome.noReturn := by
    norm_num [empirical_quantilte, empirical_quantilte_body]
  have h2 : empirical_quantilte [1, 2, 3] (1 / 2) = Outcome.noReturn := by
    norm_num [empirical_quantilte, empirical_quantilte_body]
  have t1 : Int.toNat 1 = 1 := rfl
  refine ⟨?_, h1, h2, ?_, ?_, ?_⟩
  · exact (List.perm_append_comm : List.Perm ([(3 : ℚ)] ++ [1, 2]) ([1, 2] ++ [3]))
  · rw [h1]
    simp
  · norm_num [quantile_spec, sort, t1]
  · norm_num [quantile_spec, sort, t1]

/-- C12: on the non-empty sample `[3, -1, 2]` at `q = 0.25` the call ends without a
return, so it returns no value between the minimum `-1` and the maximum `3`; the
specification's quantile there is `0.5`. -/
theorem empirical_quantilte_no_value_in_range :
    empirical_quantilte [3, -1, 2] (1 / 4) = Outcome.noReturn ∧
    (¬ ∃ v, empirical_quantilte [3, -1, 2] (1 / 4) = Outcome.value v ∧ -1 ≤ v ∧ v ≤ 3) ∧
    quantile_spec [3, -1, 2] (1 / 4) = Outcome.value (1 / 2) := by
  have h1 : empirical_quantilte [3, -1, 2] (1 / 4) = Outcome.noReturn := by
    norm_num [empirical_quantilte, empirical_quantilte_body]
  have hf : ⌊(1 / 2 : ℚ)⌋ = 0 := by
    rw [Int.floor_eq_iff]
    norm_num
  have hc : ⌈(1 / 2 : ℚ)⌉ = 1 := by
    rw [Int.ceil_eq_iff]
    norm_num
  have t1 : Int.toNat 1 = 1 := rfl
  refine ⟨h1, ?_, ?_⟩
  · rw [h1]
    simp
  · norm_num [quantile_spec, sort, hf, hc, t1]

end RiskEngine
